import Mathlib

/-!
Verification development for the PolySleuth anomaly-detection pipeline.

The TypeScript source is embedded shallowly:
* JS numbers carried through arithmetic are modelled as exact rationals (`ℚ`);
  the single square root in the z-score computation is modelled with `Real.sqrt`,
  so z-scores live in `ℝ`.
* Epoch-millisecond timestamps are modelled as `ℤ`, observation counts as `ℕ`.
* The mutable per-market statistics map is modelled as a function
  `String → Option MarketStats`, updated functionally.
* External collaborators (whale oracle, wallet-stats oracle, the remote
  generative analyzer transport) are modelled as explicit function parameters.
-/

/-- Severity levels, from types.ts (`SuspicionLevel`). -/
inductive SuspicionLevel where
  | LOW
  | MEDIUM
  | HIGH
  | CRITICAL
deriving DecidableEq, Repr

/-- Per-market running statistics, from types.ts (`MarketStats`). -/
structure MarketStats where
  count : ℕ
  meanSize : ℚ
  m2Size : ℚ
  lastUpdate : ℤ
deriving DecidableEq, Repr

/-- Market record, from types.ts (`PolymarketMarket`); fields not used by the
scoring pipeline (slug, endDate, outcome arrays) are kept as plain data. -/
structure PolymarketMarket where
  id : String
  gammaId : String
  question : String
  slug : String
  endDate : String
  volume : ℚ
  liquidity : ℚ
  outcomes : List String
  outcomePrices : List String
deriving DecidableEq, Repr

/-- Trade record, from types.ts (`Trade`). `side` is model-irrelevant text. -/
structure Trade where
  id : String
  marketId : String
  marketQuestion : String
  outcomeIndex : ℤ
  outcomeLabel : String
  side : String
  price : ℚ
  size : ℚ
  timestamp : ℤ
  makerAddress : String
  transactionHash : String
deriving DecidableEq, Repr

/-- Wallet statistics as returned by `fetchWalletStats` (polymarketService). -/
structure WalletStats where
  totalTrades : ℤ
  winRate : ℚ
  accountAgeDays : ℚ
deriving DecidableEq, Repr

/-- The statistics store: JS `Map<string, MarketStats>` modelled as a lookup
function. -/
def StatsStore : Type := String → Option MarketStats

/-- The initially empty statistics map. -/
def emptyStore : StatsStore := fun _ => none

/-- One Welford update step, the body of `updateMarketStats` (App.tsx lines
36-40): `count' = count+1`, `delta = size - mean`, `mean' = mean + delta/count'`,
`M2' = M2 + delta*(size - mean')`. -/
def welfordStep (stats : MarketStats) (size : ℚ) (now : ℤ) : MarketStats :=
  let count := stats.count + 1
  let delta := size - stats.meanSize
  let meanSize := stats.meanSize + delta / (count : ℚ)
  let m2Size := stats.m2Size + delta * (size - meanSize)
  { count := count, meanSize := meanSize, m2Size := m2Size, lastUpdate := now }

/-- `updateMarketStats` from App.tsx (lines 34-43): reads the current stats for
the market (defaulting to `count=0, mean=0, M2=0`), applies the Welford step,
stores the new snapshot and returns it. `now` stands for `Date.now()`. -/
def updateMarketStats (store : StatsStore) (marketId : String) (size : ℚ)
    (now : ℤ) : MarketStats × StatsStore :=
  let stats := (store marketId).getD ⟨0, 0, 0, now⟩
  let newStats := welfordStep stats size now
  (newStats, fun k => if k = marketId then some newStats else store k)

/-- Feeding a whole sequence of trade sizes for one market through
`updateMarketStats`, carrying only the store. -/
def feedSizes (marketId : String) (now : ℤ) (xs : List ℚ)
    (store : StatsStore) : StatsStore :=
  xs.foldl (fun st x => (updateMarketStats st marketId x now).2) store

/-- Scalar Welford fold starting from the fresh-market state. -/
def statsFold (now : ℤ) (xs : List ℚ) : MarketStats :=
  xs.foldl (fun s x => welfordStep s x now) ⟨0, 0, 0, now⟩

/-- Modelled from the spec: the arithmetic mean of a batch of sizes, the
comparison target for the running mean. -/
def specArithMean (xs : List ℚ) : ℚ := xs.sum / xs.length

/-- Modelled from the spec: the population variance of a batch of sizes, the
comparison target for `M2/count`. -/
def specPopVariance (xs : List ℚ) : ℚ :=
  (xs.map (fun x => (x - specArithMean xs) ^ 2)).sum / xs.length

lemma sum_map_sq_sub (xs : List ℚ) (c : ℚ) :
    (xs.map (fun x => (x - c) ^ 2)).sum
      = (xs.map (fun x => x ^ 2)).sum - 2 * c * xs.sum + xs.length * c ^ 2 := by
  induction xs with
  | nil => simp
  | cons y ys ih =>
    simp only [List.map_cons, List.sum_cons, List.length_cons, ih]
    push_cast
    ring

lemma statsFold_append (now : ℤ) (xs : List ℚ) (x : ℚ) :
    statsFold now (xs ++ [x]) = welfordStep (statsFold now xs) x now := by
  simp [statsFold, List.foldl_append]

lemma statsFold_count (now : ℤ) (xs : List ℚ) :
    (statsFold now xs).count = xs.length := by
  induction xs using List.reverseRecOn with
  | nil => simp [statsFold]
  | append_singleton ys x ih => simp [statsFold_append, welfordStep, ih]

lemma statsFold_invariant (now : ℤ) (xs : List ℚ) :
    (statsFold now xs).meanSize * xs.length = xs.sum ∧
    (statsFold now xs).m2Size
      = (xs.map (fun x => x ^ 2)).sum - xs.sum ^ 2 / xs.length := by
  induction xs using List.reverseRecOn with
  | nil => simp [statsFold]
  | append_singleton ys x ih =>
    rw [statsFold_append]
    by_cases hys : ys = []
    · subst hys
      simp [statsFold, welfordStep]
    · obtain ⟨hmean, hm2⟩ := ih
      have hlen0 : ys.length ≠ 0 := fun h => hys (List.length_eq_zero.mp h)
      have hlenQ : ((ys.length : ℕ) : ℚ) ≠ 0 := Nat.cast_ne_zero.mpr hlen0
      have hlen1 : ((ys.length : ℚ) + 1) ≠ 0 := by positivity
      have hmeanval : (statsFold now ys).meanSize = ys.sum / ys.length :=
        (eq_div_iff hlenQ).mpr hmean
      have hcount := statsFold_count now ys
      constructor
      · simp only [welfordStep, hcount, hmeanval, List.length_append,
          List.sum_append, List.length_singleton, List.sum_singleton]
        push_cast
        field_simp
        ring
      · simp only [welfordStep, hcount, hmeanval, hm2, List.length_append,
          List.sum_append, List.length_singleton, List.sum_singleton,
          List.map_append, List.map_singleton]
        push_cast
        field_simp
        ring

lemma statsFold_mean (now : ℤ) (xs : List ℚ) (h : xs ≠ []) :
    (statsFold now xs).meanSize = xs.sum / xs.length := by
  have hlen0 : xs.length ≠ 0 := fun hh => h (List.length_eq_zero.mp hh)
  exact (eq_div_iff (Nat.cast_ne_zero.mpr hlen0)).mpr (statsFold_invariant now xs).1

/-- C1: for every nonempty sequence of trade sizes fed (via
`updateMarketStats`) to the statistics tracker for one market, the stored
`meanSize` equals the arithmetic mean of the sequence and `m2Size/count`
equals the population variance (exactly, in the rational model), starting from
`count=0, mean=0, M2=0`; moreover every update stores exactly the snapshot it
returns (the post-update snapshot). -/
theorem updateMarketStats_welford_correct (marketId : String) (now : ℤ)
    (xs : List ℚ) (hxs : xs ≠ []) :
    ∃ st : MarketStats,
      feedSizes marketId now xs emptyStore marketId = some st ∧
      st.count = xs.length ∧
      st.meanSize = specArithMean xs ∧
      st.m2Size / (st.count : ℚ) = specPopVariance xs ∧
      ∀ (store : StatsStore) (x : ℚ),
        (updateMarketStats store marketId x now).2 marketId
          = some (updateMarketStats store marketId x now).1 := by
  have hfeed : ∀ (ys : List ℚ) (store : StatsStore) (s0 : MarketStats),
      store marketId = some s0 →
      feedSizes marketId now ys store marketId
        = some (ys.foldl (fun s x => welfordStep s x now) s0) := by
    intro ys
    induction ys with
    | nil => intro store s0 h; simpa [feedSizes] using h
    | cons y ys ih =>
      intro store s0 h
      have : (updateMarketStats store marketId y now).2 marketId
          = some (welfordStep s0 y now) := by
        simp [updateMarketStats, h]
      simpa [feedSizes, List.foldl_cons] using
        ih (updateMarketStats store marketId y now).2 (welfordStep s0 y now) this
  obtain ⟨x, xs', rfl⟩ := List.exists_cons_of_ne_nil hxs
  have hstep : (updateMarketStats emptyStore marketId x now).2 marketId
      = some (welfordStep ⟨0, 0, 0, now⟩ x now) := by
    simp [updateMarketStats, emptyStore]
  have hlookup : feedSizes marketId now (x :: xs') emptyStore marketId
      = some (statsFold now (x :: xs')) := by
    have := hfeed xs' (updateMarketStats emptyStore marketId x now).2
      (welfordStep ⟨0, 0, 0, now⟩ x now) hstep
    simpa [feedSizes, statsFold, List.foldl_cons] using this
  refine ⟨statsFold now (x :: xs'), hlookup, statsFold_count now _, ?_, ?_, ?_⟩
  · rw [specArithMean]
    exact statsFold_mean now _ hxs
  · have hm2 := (statsFold_invariant now (x :: xs')).2
    have hlen : (((x :: xs').length : ℕ) : ℚ) ≠ 0 := by
      simp only [List.length_cons]
      push_cast
      positivity
    rw [statsFold_count, hm2, specPopVariance, sum_map_sq_sub, specArithMean]
    field_simp
    ring
  · intro store y
    simp [updateMarketStats]

/-- Concrete witness for C1: the sizes 10 and 20 give count 2, mean 15 and
M2 = 50, so variance M2/count = 25. -/
theorem updateMarketStats_welford_correct_witness :
    ([10, 20] : List ℚ) ≠ [] ∧
    (∃ st : MarketStats,
      feedSizes "m1" 0 [10, 20] emptyStore "m1" = some st ∧
      st.count = ([10, 20] : List ℚ).length ∧
      st.meanSize = specArithMean [10, 20] ∧
      st.m2Size / (st.count : ℚ) = specPopVariance [10, 20] ∧
      ∀ (store : StatsStore) (x : ℚ),
        (updateMarketStats store "m1" x 0).2 "m1"
          = some (updateMarketStats store "m1" x 0).1) ∧
    feedSizes "m1" 0 [10, 20] emptyStore "m1"
      = some ⟨2, 15, 50, 0⟩ := by
  refine ⟨by decide, updateMarketStats_welford_correct "m1" 0 [10, 20] (by decide), ?_⟩
  simp [feedSizes, updateMarketStats, emptyStore, welfordStep]
  norm_num

/-- Heuristic factor tags produced by `analyzeTradeHeuristics` and by the
analyzer; the high-size tag carries the z value that the source interpolates
into the tag string, and `analyzerTag` stands for free-text analyzer tags. -/
inductive Factor where
  | highSizeZ (z : ℝ)
  | liquidityImpact
  | speculativeAccumulation
  | whaleActivity
  | knownInsider
  | analyzerTag (s : String)

noncomputable instance : DecidableEq Factor := fun _ _ => Classical.propDecidable _

/-- JS `String.prototype.toLowerCase()` on ASCII addresses, modelled as a
character-wise lowercase map. -/
def jsLower (s : String) : String := String.mk (s.data.map Char.toLower)

/-- The hardcoded known-insider wallet of polymarketService (line 302). -/
def insiderAddress : String := "0x31a56e9E690c621eD21De08Cb559e9524Cdb8eD9"

/-- `calculateDynamicZScore` from polymarketService (lines 288-292): fixed
reference fallback `(size - 200)/300` when stats are absent or `count < 5`,
otherwise `(size - mean)/stdDev` with `stdDev = sqrt(M2/count)`, returning 0
when the standard deviation is 0. -/
noncomputable def calculateDynamicZScore (size : ℚ) (stats : Option MarketStats) : ℝ :=
  match stats with
  | none => ((size : ℝ) - 200) / 300
  | some s =>
      if s.count < 5 then ((size : ℝ) - 200) / 300
      else
        let stdDev := Real.sqrt ((s.m2Size : ℝ) / (s.count : ℝ))
        if stdDev = 0 then 0 else ((size : ℝ) - (s.meanSize : ℝ)) / stdDev

/-- `analyzeTradeHeuristics` from polymarketService (lines 294-304):
sequentially accumulates the five gated contributions and their tags. -/
noncomputable def analyzeTradeHeuristics (trade : Trade) (market : PolymarketMarket)
    (stats : Option MarketStats) (isWhale : Bool) : ℚ × List Factor :=
  let zScore := calculateDynamicZScore trade.size stats
  let p0 : ℚ × List Factor := (0, [])
  let p1 := if 3 < zScore then (p0.1 + 35, p0.2 ++ [Factor.highSizeZ zScore]) else p0
  let p2 := if 0 < market.liquidity ∧ 0.01 < trade.size / market.liquidity then
      (p1.1 + 25, p1.2 ++ [Factor.liquidityImpact]) else p1
  let p3 := if trade.price < 0.20 ∧ 200 < trade.size then
      (p2.1 + 20, p2.2 ++ [Factor.speculativeAccumulation]) else p2
  let p4 := if isWhale then (p3.1 + 30, p3.2 ++ [Factor.whaleActivity]) else p3
  if jsLower trade.makerAddress = jsLower insiderAddress then
    (p4.1 + 50, p4.2 ++ [Factor.knownInsider]) else p4

/-- C2: the heuristic base score is the sum of exactly the five independent,
threshold-gated contributions, each appending its one factor tag (the
high-size tag carrying the z value), with no upper clamp applied. -/
theorem analyzeTradeHeuristics_additive (trade : Trade) (market : PolymarketMarket)
    (stats : Option MarketStats) (isWhale : Bool) :
    analyzeTradeHeuristics trade market stats isWhale =
      ((if 3 < calculateDynamicZScore trade.size stats then 35 else 0)
        + (if 0 < market.liquidity ∧ 0.01 < trade.size / market.liquidity then 25 else 0)
        + (if trade.price < 0.20 ∧ 200 < trade.size then 20 else 0)
        + (if isWhale then 30 else 0)
        + (if jsLower trade.makerAddress = jsLower insiderAddress then 50 else 0),
      (if 3 < calculateDynamicZScore trade.size stats then
          [Factor.highSizeZ (calculateDynamicZScore trade.size stats)] else [])
        ++ (if 0 < market.liquidity ∧ 0.01 < trade.size / market.liquidity then
          [Factor.liquidityImpact] else [])
        ++ (if trade.price < 0.20 ∧ 200 < trade.size then
          [Factor.speculativeAccumulation] else [])
        ++ (if isWhale then [Factor.whaleActivity] else [])
        ++ (if jsLower trade.makerAddress = jsLower insiderAddress then
          [Factor.knownInsider] else [])) := by
  simp only [analyzeTradeHeuristics]
  split_ifs <;> simp

/-- C10: the dynamic z-score is total at its interface: absent stats or
`count < 5` give the fixed fallback `(size - 200)/300`; with `count ≥ 5` a zero
derived standard deviation gives 0 rather than a division by zero; otherwise
the sample estimator is used. -/
theorem calculateDynamicZScore_total (size : ℚ) (stats : Option MarketStats) :
    ((stats = none ∨ ∃ s, stats = some s ∧ s.count < 5) →
      calculateDynamicZScore size stats = ((size : ℝ) - 200) / 300)
    ∧ (∀ s, stats = some s → 5 ≤ s.count →
        Real.sqrt ((s.m2Size : ℝ) / (s.count : ℝ)) = 0 →
        calculateDynamicZScore size stats = 0)
    ∧ (∀ s, stats = some s → 5 ≤ s.count →
        Real.sqrt ((s.m2Size : ℝ) / (s.count : ℝ)) ≠ 0 →
        calculateDynamicZScore size stats
          = ((size : ℝ) - (s.meanSize : ℝ))
              / Real.sqrt ((s.m2Size : ℝ) / (s.count : ℝ))) := by
  refine ⟨?_, ?_, ?_⟩
  · rintro (rfl | ⟨s, rfl, hs⟩)
    · rfl
    · simp [calculateDynamicZScore, hs]
  · rintro s rfl hcount hsqrt
    have hlt : ¬ s.count < 5 := by omega
    simp only [calculateDynamicZScore, if_neg hlt, hsqrt]
    simp
  · rintro s rfl hcount hsqrt
    have hlt : ¬ s.count < 5 := by omega
    simp only [calculateDynamicZScore, if_neg hlt, if_neg hsqrt]

/-- Witness for C10: a concrete fallback evaluation and a concrete
zero-standard-deviation evaluation. -/
theorem calculateDynamicZScore_total_witness :
    calculateDynamicZScore 500 none = (((500 : ℚ) : ℝ) - 200) / 300
    ∧ calculateDynamicZScore 500 (some ⟨5, 100, 0, 0⟩) = 0 := by
  constructor
  · exact (calculateDynamicZScore_total 500 none).1 (Or.inl rfl)
  · refine (calculateDynamicZScore_total 500 (some ⟨5, 100, 0, 0⟩)).2.1
      ⟨5, 100, 0, 0⟩ rfl (le_refl 5) ?_
    norm_num

/-- `fuse` extracted from `evaluateTrade` (App.tsx lines 108-117): the final
score is the rounded mean of base and analyzer score, while the level
thresholds are applied to the unrounded mean. -/
def fuse (baseScore analyzerScore : ℚ) : ℤ × SuspicionLevel :=
  let finalScore := (baseScore + analyzerScore) / 2
  let level :=
    if 85 < finalScore then SuspicionLevel.CRITICAL
    else if 65 < finalScore then SuspicionLevel.HIGH
    else if 40 < finalScore then SuspicionLevel.MEDIUM
    else SuspicionLevel.LOW
  (round finalScore, level)

/-- Modelled from the spec: the claimed level map on the rounded final score,
with exclusive lower bounds 85/65/40. -/
def specLevelOf (s : ℤ) : SuspicionLevel :=
  if 85 < s then SuspicionLevel.CRITICAL
  else if 65 < s then SuspicionLevel.HIGH
  else if 40 < s then SuspicionLevel.MEDIUM
  else SuspicionLevel.LOW

lemma half_threshold (k T : ℤ) :
    ((T : ℚ) < (k : ℚ) / 2) ↔ T < round ((k : ℚ) / 2) := by
  rcases Int.even_or_odd k with ⟨m, hm⟩ | ⟨m, hm⟩
  · have h2 : (k : ℚ) / 2 = (m : ℚ) := by
      subst hm
      push_cast
      ring
    rw [h2, round_intCast, Int.cast_lt]
  · have h2 : (k : ℚ) / 2 = (m : ℚ) + 1 / 2 := by
      subst hm
      push_cast
      ring
    have h3 : round ((m : ℚ) + 1 / 2) = m + 1 := by
      have h5 : round ((1 : ℚ) / 2) = 1 := by norm_num [round_eq]
      rw [add_comm, round_add_int, h5, add_comm]
    rw [h2, h3]
    constructor
    · intro h
      by_contra hc
      push_neg at hc
      have h4 : (m : ℚ) + 1 ≤ (T : ℚ) := by exact_mod_cast hc
      linarith
    · intro h
      have h4 : (T : ℚ) ≤ (m : ℚ) := by exact_mod_cast Int.lt_add_one_iff.mp h
      linarith

lemma fuse_fst (b a : ℚ) : (fuse b a).1 = round ((b + a) / 2) := rfl

lemma fuse_snd (b a : ℚ) :
    (fuse b a).2 =
      (if 85 < (b + a) / 2 then SuspicionLevel.CRITICAL
       else if 65 < (b + a) / 2 then SuspicionLevel.HIGH
       else if 40 < (b + a) / 2 then SuspicionLevel.MEDIUM
       else SuspicionLevel.LOW) := rfl

/-- C4 counterexample: the source applies the level thresholds to the
unrounded mean, not to the rounded final score: fusing base 85 with analyzer
score 85.6 yields final score 85 with level CRITICAL, while the claimed level
map on the rounded score 85 gives HIGH. -/
theorem fuse_rounded_level_cex :
    fuse 85 (428 / 5) = (85, SuspicionLevel.CRITICAL)
    ∧ specLevelOf 85 = SuspicionLevel.HIGH
    ∧ SuspicionLevel.CRITICAL ≠ SuspicionLevel.HIGH := by
  refine ⟨?_, by decide, by decide⟩
  rw [Prod.ext_iff, fuse_fst, fuse_snd]
  norm_num [round_eq]

/-- C4 (amended): the final score is `round((base + analyzer)/2)`; the level
is determined by exclusive lower bounds 85/65/40 applied to the unrounded
mean, which coincides with applying them to the rounded score whenever both
inputs are integers; the three pinned instances hold. -/
theorem fuse_correct :
    (∀ b a : ℚ, (fuse b a).1 = round ((b + a) / 2)) ∧
    (∀ b a : ℚ, (fuse b a).2 =
      (if 85 < (b + a) / 2 then SuspicionLevel.CRITICAL
       else if 65 < (b + a) / 2 then SuspicionLevel.HIGH
       else if 40 < (b + a) / 2 then SuspicionLevel.MEDIUM
       else SuspicionLevel.LOW)) ∧
    (∀ b a : ℤ, (fuse (b : ℚ) (a : ℚ)).2 = specLevelOf (fuse (b : ℚ) (a : ℚ)).1) ∧
    fuse 60 80 = (70, SuspicionLevel.HIGH) ∧
    fuse 0 0 = (0, SuspicionLevel.LOW) ∧
    fuse 100 100 = (100, SuspicionLevel.CRITICAL) := by
  refine ⟨fun b a => rfl, fun b a => rfl, ?_,
    by rw [Prod.ext_iff, fuse_fst, fuse_snd]; norm_num [round_eq],
    by rw [Prod.ext_iff, fuse_fst, fuse_snd]; norm_num [round_eq],
    by rw [Prod.ext_iff, fuse_fst, fuse_snd]; norm_num [round_eq]⟩
  intro b a
  rw [fuse_snd, fuse_fst]
  have h85 := half_threshold (b + a) 85
  have h65 := half_threshold (b + a) 65
  have h40 := half_threshold (b + a) 40
  push_cast at h85 h65 h40
  rw [specLevelOf]
  simp only [h85, h65, h40]

/-- Analyzer response shape, from types.ts (`GeminiAnalysisResponse`); the
free-text factor tags of the analyzer are modelled as `Factor` values. -/
structure GeminiAnalysisResponse where
  suspicionScore : ℚ
  reasoning : String
  factors : List Factor
  riskLevel : SuspicionLevel

/-- The transport of the remote analyzer: it bundles
`ai.models.generateContent`, the `response.text` extraction, `cleanJson` and
`JSON.parse`; an exception anywhere in that chain (network failure, empty
text, malformed JSON) is an `Except.error`. -/
def GeminiCall : Type :=
  Trade → PolymarketMarket → List Factor → Option WalletStats →
    Except String GeminiAnalysisResponse

/-- The catch-branch fallback of `analyzeSuspicion` (geminiService.ts lines
69-78): `heuristicScore = factors.length * 15`, score `min(50, heuristicScore)`,
risk level HIGH only above 60, first three factors echoed back. -/
def geminiFallback (preliminaryFactors : List Factor) : GeminiAnalysisResponse :=
  let heuristicScore : ℚ := preliminaryFactors.length * 15
  { suspicionScore := min 50 heuristicScore
    reasoning := "AI Unavailable - Heuristic Estimate Only"
    riskLevel := if 60 < heuristicScore then SuspicionLevel.HIGH else SuspicionLevel.MEDIUM
    factors := preliminaryFactors.take 3 }

/-- `analyzeSuspicion` from geminiService.ts: returns the parsed analyzer
response, degrading to the deterministic heuristic fallback on any failure. -/
def analyzeSuspicion (call : GeminiCall) (trade : Trade) (market : PolymarketMarket)
    (preliminaryFactors : List Factor) (walletStats : Option WalletStats) :
    GeminiAnalysisResponse :=
  match call trade market preliminaryFactors walletStats with
  | Except.ok r => r
  | Except.error _ => geminiFallback preliminaryFactors

/-- C7: `analyzeSuspicion` never propagates a transport failure: on success it
returns the parsed response, and on any failure it returns the deterministic
heuristic fallback with score `min(50, 15 × factorCount)`. -/
theorem analyzeSuspicion_never_fails (call : GeminiCall) (trade : Trade)
    (market : PolymarketMarket) (fs : List Factor) (ws : Option WalletStats) :
    (∀ r, call trade market fs ws = Except.ok r →
      analyzeSuspicion call trade market fs ws = r)
    ∧ (∀ e, call trade market fs ws = Except.error e →
      analyzeSuspicion call trade market fs ws =
        { suspicionScore := min 50 (15 * fs.length)
          reasoning := "AI Unavailable - Heuristic Estimate Only"
          riskLevel := if 60 < 15 * (fs.length : ℚ) then SuspicionLevel.HIGH
            else SuspicionLevel.MEDIUM
          factors := fs.take 3 }) := by
  constructor
  · intro r h
    simp [analyzeSuspicion, h]
  · intro e h
    simp only [analyzeSuspicion, h, geminiFallback]
    rw [mul_comm]

/-- A transport that always fails, for the analyzer-down scenario. -/
def failingCall : GeminiCall := fun _ _ _ _ => Except.error "AI offline"

/-- A demonstration trade used to instantiate witnesses. -/
def demoTrade : Trade :=
  { id := "t-demo", marketId := "m-demo", marketQuestion := "demo?",
    outcomeIndex := 0, outcomeLabel := "Yes", side := "BUY",
    price := 1/2, size := 100, timestamp := 0,
    makerAddress := "0xdemo", transactionHash := "0xh" }

/-- A demonstration market used to instantiate witnesses. -/
def demoMarket : PolymarketMarket :=
  { id := "m-demo", gammaId := "1", question := "demo?", slug := "demo",
    endDate := "2026-01-01", volume := 1000, liquidity := 450000,
    outcomes := ["Yes", "No"], outcomePrices := ["0.5", "0.5"] }

/-- Witness for C7: the analyzer-down scenario with 3 heuristic factors gives
fallback score 45 and risk level MEDIUM. -/
theorem analyzeSuspicion_never_fails_witness :
    analyzeSuspicion failingCall demoTrade demoMarket
      [Factor.liquidityImpact, Factor.speculativeAccumulation, Factor.knownInsider] none
      = { suspicionScore := min 50 (15 * 3)
          reasoning := "AI Unavailable - Heuristic Estimate Only"
          riskLevel := if 60 < 15 * ((3 : ℕ) : ℚ) then SuspicionLevel.HIGH
            else SuspicionLevel.MEDIUM
          factors := [Factor.liquidityImpact, Factor.speculativeAccumulation,
            Factor.knownInsider] }
    ∧ (min 50 (15 * 3) : ℚ) = 45
    ∧ (if 60 < 15 * ((3 : ℕ) : ℚ) then SuspicionLevel.HIGH else SuspicionLevel.MEDIUM)
        = SuspicionLevel.MEDIUM := by
  refine ⟨?_, by norm_num, by norm_num⟩
  have h := (analyzeSuspicion_never_fails failingCall demoTrade demoMarket
    [Factor.liquidityImpact, Factor.speculativeAccumulation, Factor.knownInsider] none).2
    "AI offline" rfl
  simpa using h

/-- External collaborators and ambient flags of the scan pipeline
(App.tsx): the simulation-mode toggle, `Date.now()`, and the three
oracles `fetchMarketWhales`, `fetchWalletStats` and the analyzer transport. -/
structure Env where
  simulationMode : Bool
  now : ℤ
  fetchMarketWhales : String → List String
  fetchWalletStats : String → Option WalletStats
  geminiCall : GeminiCall

/-- The mutable refs of App.tsx touched by `evaluateTrade`:
`processedTradeIds` (a JS Set, modelled as a duplicate-free list) and
`marketStatsRef`. -/
structure AppState where
  processedTradeIds : List String
  marketStats : StatsStore

/-- The fresh state at process start. -/
def initialState : AppState := ⟨[], emptyStore⟩

/-- Events recording calls made to the external oracles, used to state that
a deduplicated re-submission performs no oracle call. -/
inductive OracleCall where
  | whales (marketId : String)
  | wallet (address : String)
  | analyzer (tradeId : String)
deriving DecidableEq, Repr

/-- Wallet stats attached to an alert: `{ ...realWalletStats, isWhale }`. -/
structure AlertWalletStats extends WalletStats where
  isWhale : Bool

/-- `SuspiciousActivity` from types.ts: one alert. -/
structure SuspiciousActivity where
  id : String
  trade : Trade
  suspicionScore : ℤ
  level : SuspicionLevel
  reasoning : String
  factors : List Factor
  walletStats : Option AlertWalletStats

/-- JS `Array.from(new Set(l))`: first occurrence kept, in order. -/
def jsSetDedup {α : Type} [DecidableEq α] (l : List α) : List α :=
  l.foldl (fun acc x => if x ∈ acc then acc else acc ++ [x]) []

/-- The scoring tail of `evaluateTrade` (App.tsx lines 97-124), applied to the
statistics snapshot it is handed: whale lookup (skipped in simulation mode),
heuristics, the `baseScore > 10` qualification gate, wallet-stats and analyzer
calls, fusion, and alert construction. Returns the optional alert and the
oracle calls performed. -/
noncomputable def scoreTrade (env : Env) (trade : Trade) (market : PolymarketMarket)
    (stats : MarketStats) : Option SuspiciousActivity × List OracleCall :=
  let isWhale := if env.simulationMode then false
    else (env.fetchMarketWhales market.id).contains (jsLower trade.makerAddress)
  let whaleCalls := if env.simulationMode then ([] : List OracleCall)
    else [OracleCall.whales market.id]
  let h := analyzeTradeHeuristics trade market (some stats) isWhale
  if 10 < h.1 then
    let realWalletStats := env.fetchWalletStats trade.makerAddress
    let analysis := analyzeSuspicion env.geminiCall trade market h.2 realWalletStats
    let f := fuse h.1 analysis.suspicionScore
    (some { id := trade.id
            trade := trade
            suspicionScore := f.1
            level := f.2
            reasoning := analysis.reasoning
            factors := jsSetDedup (h.2 ++ analysis.factors)
            walletStats := realWalletStats.map
              (fun w => { toWalletStats := w, isWhale := isWhale }) },
     whaleCalls ++ [OracleCall.wallet trade.makerAddress, OracleCall.analyzer trade.id])
  else (none, whaleCalls)

/-- `evaluateTrade` from App.tsx (lines 93-125): dedup gate on the trade id,
statistics update (whose returned post-update snapshot is handed to the
scoring tail), then `scoreTrade`. -/
noncomputable def evaluateTrade (env : Env) (trade : Trade) (market : PolymarketMarket)
    (s : AppState) : Option SuspiciousActivity × AppState × List OracleCall :=
  if trade.id ∈ s.processedTradeIds then (none, s, [])
  else
    let upd := updateMarketStats s.marketStats market.id trade.size env.now
    let r := scoreTrade env trade market upd.1
    (r.1, ⟨trade.id :: s.processedTradeIds, upd.2⟩, r.2)

/-- A lifetime of submissions to the evaluator, threading the state and
collecting the produced alerts. -/
noncomputable def processTrades (env : Env) :
    List (Trade × PolymarketMarket) → AppState → List SuspiciousActivity × AppState
  | [], s => ([], s)
  | sub :: subs, s =>
      let r := evaluateTrade env sub.1 sub.2 s
      let rest := processTrades env subs r.2.1
      (r.1.toList ++ rest.1, rest.2)

lemma scoreTrade_some_id (env : Env) (t : Trade) (m : PolymarketMarket)
    (st : MarketStats) (a : SuspiciousActivity)
    (h : (scoreTrade env t m st).1 = some a) : a.id = t.id := by
  dsimp only [scoreTrade] at h
  split_ifs at h
  all_goals
    first
      | exact Option.noConfusion h
      | exact (congrArg (fun x => x.id) (Option.some.inj h)).symm

lemma evaluateTrade_processedTradeIds (env : Env) (t : Trade)
    (m : PolymarketMarket) (s : AppState) :
    (evaluateTrade env t m s).2.1.processedTradeIds = s.processedTradeIds
    ∨ (evaluateTrade env t m s).2.1.processedTradeIds
        = t.id :: s.processedTradeIds := by
  unfold evaluateTrade
  split_ifs with h
  · exact Or.inl rfl
  · exact Or.inr rfl

lemma evaluateTrade_mem_mono (env : Env) (t : Trade) (m : PolymarketMarket)
    (s : AppState) (i : String) (h : i ∈ s.processedTradeIds) :
    i ∈ (evaluateTrade env t m s).2.1.processedTradeIds := by
  rcases evaluateTrade_processedTradeIds env t m s with h' | h' <;>
    rw [h'] <;> simp [h]

lemma evaluateTrade_some (env : Env) (t : Trade) (m : PolymarketMarket)
    (s : AppState) (a : SuspiciousActivity)
    (h : (evaluateTrade env t m s).1 = some a) :
    a.id = t.id ∧ t.id ∉ s.processedTradeIds ∧
    (evaluateTrade env t m s).2.1.processedTradeIds
      = t.id :: s.processedTradeIds := by
  by_cases hgate : t.id ∈ s.processedTradeIds
  · rw [evaluateTrade, if_pos hgate] at h
    simp at h
  · refine ⟨?_, hgate, ?_⟩
    · rw [evaluateTrade, if_neg hgate] at h
      exact scoreTrade_some_id env t m _ a h
    · rw [evaluateTrade, if_neg hgate]

lemma processTrades_mem_mono (env : Env) (subs : List (Trade × PolymarketMarket)) :
    ∀ (s : AppState) (i : String), i ∈ s.processedTradeIds →
      i ∈ (processTrades env subs s).2.processedTradeIds := by
  induction subs with
  | nil => intro s i h; simpa [processTrades] using h
  | cons sub subs ih =>
    intro s i h
    simp only [processTrades]
    exact ih _ i (evaluateTrade_mem_mono env sub.1 sub.2 s i h)

lemma processTrades_ids_nodup (env : Env) (subs : List (Trade × PolymarketMarket)) :
    ∀ s : AppState,
      ((processTrades env subs s).1.map (fun a => a.id)).Nodup
      ∧ ∀ a ∈ (processTrades env subs s).1, a.id ∉ s.processedTradeIds := by
  induction subs with
  | nil => intro s; simp [processTrades]
  | cons sub subs ih =>
    intro s
    simp only [processTrades]
    rcases hopt : (evaluateTrade env sub.1 sub.2 s).1 with _ | a
    · simp only [Option.toList_none, List.nil_append]
      obtain ⟨h1, h2⟩ := ih (evaluateTrade env sub.1 sub.2 s).2.1
      exact ⟨h1, fun a ha hmem =>
        h2 a ha (evaluateTrade_mem_mono env sub.1 sub.2 s a.id hmem)⟩
    · obtain ⟨hid, hnot, hproc⟩ := evaluateTrade_some env sub.1 sub.2 s a hopt
      obtain ⟨h1, h2⟩ := ih (evaluateTrade env sub.1 sub.2 s).2.1
      simp only [Option.toList_some, List.singleton_append]
      constructor
      · simp only [List.map_cons, List.nodup_cons]
        refine ⟨?_, h1⟩
        intro hmem
        obtain ⟨b, hb, hbid⟩ := List.mem_map.mp hmem
        have hb2 := h2 b hb
        rw [hproc] at hb2
        exact hb2 (by rw [hbid, hid]; exact List.mem_cons_self _ _)
      · intro c hc
        rcases List.mem_cons.mp hc with rfl | hc'
        · rw [hid]
          exact hnot
        · intro hmem
          have hc2 := h2 c hc'
          rw [hproc] at hc2
          exact hc2 (List.mem_cons_of_mem _ hmem)

lemma length_filter_le_one_of_nodup {α : Type} (l : List α) (f : α → String)
    (i : String) (h : (l.map f).Nodup) :
    (l.filter (fun a => f a = i)).length ≤ 1 := by
  induction l with
  | nil => simp
  | cons x xs ih =>
    simp only [List.map_cons, List.nodup_cons] at h
    rw [List.filter_cons]
    by_cases hx : f x = i
    · have hnil : xs.filter (fun a => decide (f a = i)) = [] := by
        rw [List.filter_eq_nil_iff]
        intro a ha
        simp only [decide_eq_true_eq]
        intro hfa
        exact h.1 (List.mem_map.mpr ⟨a, ha, hfa.trans hx.symm⟩)
      simp [hx, hnil]
    · rw [if_neg (by simp [hx])]
      exact ih h.2

/-- C5: a trade id already marked in the dedup ledger makes
`evaluateTrade` a complete no-op — no alert, unchanged state (hence no
statistics update) and no oracle calls — and over any lifetime of submissions
starting from the fresh state the evaluator produces at most one alert per
trade id. -/
theorem evaluateTrade_idempotent (env : Env) :
    (∀ (t : Trade) (m : PolymarketMarket) (s : AppState),
        t.id ∈ s.processedTradeIds → evaluateTrade env t m s = (none, s, []))
    ∧ (∀ (subs : List (Trade × PolymarketMarket)) (i : String),
        ((processTrades env subs initialState).1.filter
          (fun a => a.id = i)).length ≤ 1) := by
  constructor
  · intro t m s h
    simp [evaluateTrade, h]
  · intro subs i
    exact length_filter_le_one_of_nodup _ _ i
      (processTrades_ids_nodup env subs initialState).1

/-- Witness for C5: a second submission of the demo trade is a literal no-op,
and a concrete lifetime produces at most one alert for its id. -/
theorem evaluateTrade_idempotent_witness :
    evaluateTrade ⟨true, 0, fun _ => [], fun _ => none, failingCall⟩ demoTrade demoMarket
        ⟨["t-demo"], emptyStore⟩
      = (none, ⟨["t-demo"], emptyStore⟩, [])
    ∧ ((processTrades ⟨true, 0, fun _ => [], fun _ => none, failingCall⟩
        [(demoTrade, demoMarket), (demoTrade, demoMarket)] initialState).1.filter
          (fun a => a.id = "t-demo")).length ≤ 1 :=
  ⟨(evaluateTrade_idempotent ⟨true, 0, fun _ => [], fun _ => none, failingCall⟩).1
      demoTrade demoMarket ⟨["t-demo"], emptyStore⟩ (by simp [demoTrade]),
   (evaluateTrade_idempotent ⟨true, 0, fun _ => [], fun _ => none, failingCall⟩).2
      [(demoTrade, demoMarket), (demoTrade, demoMarket)] "t-demo"⟩

/-- C3 (amended): for every trade passing the dedup gate, `evaluateTrade`
hands the scoring tail the post-update statistics snapshot (the one returned
by `updateMarketStats`, i.e. the Welford step applied to the pre-update
stats, which already includes the current trade), and on such a snapshot the
z-score is `(size - mean')/sqrt(M2'/count')` when the post-update count is at
least 5 and the derived standard deviation is nonzero, with the fixed
reference fallback `(size - 200)/300` whenever the post-update count is
below 5. -/
theorem evaluateTrade_zscore_post_update (env : Env) (t : Trade)
    (m : PolymarketMarket) (s : AppState)
    (hgate : t.id ∉ s.processedTradeIds) :
    (evaluateTrade env t m s
      = ((scoreTrade env t m (updateMarketStats s.marketStats m.id t.size env.now).1).1,
         ⟨t.id :: s.processedTradeIds,
          (updateMarketStats s.marketStats m.id t.size env.now).2⟩,
         (scoreTrade env t m (updateMarketStats s.marketStats m.id t.size env.now).1).2))
    ∧ (updateMarketStats s.marketStats m.id t.size env.now).1
        = welfordStep ((s.marketStats m.id).getD ⟨0, 0, 0, env.now⟩) t.size env.now
    ∧ (∀ post : MarketStats, post.count < 5 →
        calculateDynamicZScore t.size (some post) = ((t.size : ℝ) - 200) / 300)
    ∧ (∀ post : MarketStats, 5 ≤ post.count →
        Real.sqrt ((post.m2Size : ℝ) / (post.count : ℝ)) ≠ 0 →
        calculateDynamicZScore t.size (some post)
          = ((t.size : ℝ) - (post.meanSize : ℝ))
              / Real.sqrt ((post.m2Size : ℝ) / (post.count : ℝ))) := by
  refine ⟨?_, rfl, ?_, ?_⟩
  · rw [evaluateTrade, if_neg hgate]
  · intro post h
    simp [calculateDynamicZScore, h]
  · intro post hcount hsqrt
    have hlt : ¬ post.count < 5 := by omega
    simp only [calculateDynamicZScore, if_neg hlt, if_neg hsqrt]

/-- Witness for C3: a concrete evaluation where the snapshot handed to the
scoring tail is the Welford step on the pre-update stats. -/
theorem evaluateTrade_zscore_post_update_witness :
    (updateMarketStats initialState.marketStats demoMarket.id demoTrade.size 0).1
      = welfordStep ((initialState.marketStats demoMarket.id).getD ⟨0, 0, 0, 0⟩)
          demoTrade.size 0 :=
  (evaluateTrade_zscore_post_update ⟨true, 0, fun _ => [], fun _ => none, failingCall⟩
    demoTrade demoMarket initialState (by simp [initialState])).2.1

/-- The statistics store of the C3 counterexample: four trades of size 100
already observed on market "mX". -/
def cexPreStore : StatsStore := feedSizes "mX" 0 [100, 100, 100, 100] emptyStore

/-- The C3 counterexample trade: size 35000 on market "mX", priced at 0.5,
from an unremarkable wallet. -/
def cexTrade : Trade :=
  { id := "tX", marketId := "mX", marketQuestion := "q", outcomeIndex := 0,
    outcomeLabel := "Yes", side := "BUY", price := 1/2, size := 35000,
    timestamp := 0, makerAddress := "0xnobody", transactionHash := "0xh" }

/-- The C3 counterexample market: zero liquidity, so only the z-score gate
could fire. -/
def cexMarket : PolymarketMarket :=
  { id := "mX", gammaId := "2", question := "q", slug := "q", endDate := "e",
    volume := 0, liquidity := 0, outcomes := ["Yes", "No"],
    outcomePrices := ["0.5", "0.5"] }

/-- A simulation-mode environment with a failing analyzer transport. -/
def cexEnv : Env := ⟨true, 0, fun _ => [], fun _ => none, failingCall⟩

lemma cexPreStore_eval : cexPreStore "mX" = some ⟨4, 100, 0, 0⟩ := by
  simp [cexPreStore, feedSizes, updateMarketStats, welfordStep, emptyStore]

lemma cexPost_eval :
    (updateMarketStats cexPreStore "mX" cexTrade.size 0).1
      = ⟨5, 7080, 974408000, 0⟩ := by
  simp [updateMarketStats, cexPreStore_eval, welfordStep, cexTrade]
  norm_num

lemma cexPost_zscore :
    calculateDynamicZScore cexTrade.size (some ⟨5, 7080, 974408000, 0⟩) = 2 := by
  have hsqrt : Real.sqrt (((974408000 : ℚ) : ℝ) / ((5 : ℕ) : ℝ)) = 13960 := by
    rw [show (((974408000 : ℚ) : ℝ) / ((5 : ℕ) : ℝ)) = (13960 : ℝ) ^ 2 by
      push_cast; norm_num]
    exact Real.sqrt_sq (by norm_num)
  simp only [calculateDynamicZScore]
  rw [if_neg (by norm_num)]
  simp only [hsqrt]
  rw [if_neg (by norm_num)]
  simp only [cexTrade]
  push_cast
  norm_num

lemma cexPreZ : calculateDynamicZScore cexTrade.size (some ⟨4, 100, 0, 0⟩) = 116 := by
  simp only [calculateDynamicZScore]
  rw [if_pos (by norm_num)]
  simp only [cexTrade]
  push_cast
  norm_num

lemma cexHeurPre :
    (analyzeTradeHeuristics cexTrade cexMarket (some ⟨4, 100, 0, 0⟩) false).1 = 35 := by
  dsimp only [analyzeTradeHeuristics]
  rw [cexPreZ]
  rw [if_neg (by decide), if_neg Bool.false_ne_true,
    if_neg (by norm_num [cexTrade]), if_neg (by norm_num [cexMarket]),
    if_pos (by norm_num : (3 : ℝ) < 116)]
  norm_num

lemma cexHeurPost :
    (analyzeTradeHeuristics cexTrade cexMarket (some ⟨5, 7080, 974408000, 0⟩) false).1
      = 0 := by
  dsimp only [analyzeTradeHeuristics]
  rw [cexPost_zscore]
  rw [if_neg (by decide), if_neg Bool.false_ne_true,
    if_neg (by norm_num [cexTrade]), if_neg (by norm_num [cexMarket]),
    if_neg (by norm_num : ¬ (3 : ℝ) < 2)]

/-- C3 counterexample: after four observations of size 100 on the market, the
pre-update stats are `count=4, mean=100, M2=0`, so a z-score computed against
the pre-update statistics (as the claim states) would be the cold-start
fallback `(35000-200)/300 = 116 > 3`, making the heuristic base score 35 and
qualifying the trade for an alert; the code instead computes the z-score
against the post-update snapshot (`count=5`), obtaining z = 2, a base score
of 0, and no alert. -/
theorem evaluateTrade_zscore_pre_update_cex :
    cexPreStore "mX" = some ⟨4, 100, 0, 0⟩
    ∧ 3 < calculateDynamicZScore cexTrade.size (cexPreStore "mX")
    ∧ (analyzeTradeHeuristics cexTrade cexMarket (cexPreStore "mX") false).1 = 35
    ∧ calculateDynamicZScore cexTrade.size
        (some (updateMarketStats cexPreStore "mX" cexTrade.size 0).1) = 2
    ∧ (evaluateTrade cexEnv cexTrade cexMarket ⟨[], cexPreStore⟩).1 = none := by
  refine ⟨cexPreStore_eval, ?_, ?_, ?_, ?_⟩
  · rw [cexPreStore_eval, cexPreZ]
    norm_num
  · rw [cexPreStore_eval]
    exact cexHeurPre
  · rw [cexPost_eval]
    exact cexPost_zscore
  · rw [evaluateTrade, if_neg (by simp)]
    show (scoreTrade cexEnv cexTrade cexMarket
      (updateMarketStats cexPreStore "mX" cexTrade.size 0).1).1 = none
    rw [cexPost_eval]
    simp only [scoreTrade, cexEnv, if_true]
    rw [if_neg (by rw [cexHeurPost]; norm_num)]

/-- `generateBacktestScenario` from polymarketService (lines 274-286): the
synthetic Maduro-whale trade — size 35000 at price 0.12 from the denylisted
maker, timestamped four hours before `now`. -/
def generateBacktestScenario (now : ℤ) : Trade :=
  { id := "sim-maduro-whale"
    marketId := "0x4b7e56993f4e304602f90119109002231b67039031c6e10817094033324546"
    marketQuestion := "[DEMO] Venezuelan Election 2024 Winner?"
    outcomeIndex := 0
    outcomeLabel := "Maduro"
    side := "BUY"
    price := 0.12
    size := 35000
    timestamp := now - 14400000
    makerAddress := "0x31a56e9E690c621eD21De08Cb559e9524Cdb8eD9"
    transactionHash := "0xBacktestScenarioHash123" }

lemma backtest_heuristics_eval (nowT : ℤ) (m : PolymarketMarket)
    (stats : Option MarketStats) (hliq : m.liquidity = 450000)
    (hz : 3 < calculateDynamicZScore (generateBacktestScenario nowT).size stats) :
    analyzeTradeHeuristics (generateBacktestScenario nowT) m stats true
      = (160,
         [Factor.highSizeZ (calculateDynamicZScore (generateBacktestScenario nowT).size stats),
          Factor.liquidityImpact, Factor.speculativeAccumulation,
          Factor.whaleActivity, Factor.knownInsider]) := by
  dsimp only [analyzeTradeHeuristics]
  rw [if_pos hz]
  rw [if_pos (show 0 < m.liquidity ∧
      (0.01 : ℚ) < (generateBacktestScenario nowT).size / m.liquidity by
    rw [hliq]
    norm_num [generateBacktestScenario])]
  rw [if_pos (show (generateBacktestScenario nowT).price < 0.20 ∧
      (200 : ℚ) < (generateBacktestScenario nowT).size by
    norm_num [generateBacktestScenario])]
  rw [if_pos (show (true : Bool) = true from rfl)]
  rw [if_pos (show jsLower (generateBacktestScenario nowT).makerAddress
      = jsLower insiderAddress by rfl)]
  rw [Prod.mk.injEq]
  constructor
  · norm_num
  · simp

lemma backtest_z_none :
    calculateDynamicZScore (generateBacktestScenario 0).size none = 116 := by
  simp only [calculateDynamicZScore, generateBacktestScenario]
  push_cast
  norm_num

/-- C9 (amended): the backtest scenario trade (size 35000, price 0.12,
denylisted maker) against a market with liquidity 450000, with z-score above
3 and the whale flag set, triggers all five heuristic factors and a base
score of 160 ≥ 100; fusion yields CRITICAL for every analyzer score strictly
above 10 (scores in [0, 10] only reach HIGH). -/
theorem backtest_scenario_critical (nowT : ℤ) (m : PolymarketMarket)
    (stats : Option MarketStats) (a : ℚ) (hliq : m.liquidity = 450000)
    (hz : 3 < calculateDynamicZScore (generateBacktestScenario nowT).size stats)
    (ha : 10 < a) :
    (analyzeTradeHeuristics (generateBacktestScenario nowT) m stats true).1 = 160
    ∧ 100 ≤ (analyzeTradeHeuristics (generateBacktestScenario nowT) m stats true).1
    ∧ (analyzeTradeHeuristics (generateBacktestScenario nowT) m stats true).2
        = [Factor.highSizeZ (calculateDynamicZScore (generateBacktestScenario nowT).size stats),
           Factor.liquidityImpact, Factor.speculativeAccumulation,
           Factor.whaleActivity, Factor.knownInsider]
    ∧ (fuse (analyzeTradeHeuristics (generateBacktestScenario nowT) m stats true).1 a).2
        = SuspicionLevel.CRITICAL := by
  have hmain := backtest_heuristics_eval nowT m stats hliq hz
  rw [hmain]
  refine ⟨rfl, by norm_num, rfl, ?_⟩
  rw [fuse_snd, if_pos (by linarith)]

/-- Witness for C9: the scenario at `now = 0` against the demo market with a
cold-start z-score of 116 and analyzer score 50 is CRITICAL. -/
theorem backtest_scenario_critical_witness :
    (analyzeTradeHeuristics (generateBacktestScenario 0) demoMarket none true).1 = 160
    ∧ (fuse (analyzeTradeHeuristics (generateBacktestScenario 0) demoMarket none true).1
        50).2 = SuspicionLevel.CRITICAL := by
  have h := backtest_scenario_critical 0 demoMarket none 50 rfl
    (by rw [backtest_z_none]; norm_num) (by norm_num)
  exact ⟨h.1, h.2.2.2⟩

/-- C9 counterexample: with analyzer score 0 — a non-negative score — the
scenario fuses to (80, HIGH), not CRITICAL, refuting the claim for analyzer
scores in [0, 10]. -/
theorem backtest_scenario_nonneg_cex :
    (0 : ℚ) ≤ 0
    ∧ (analyzeTradeHeuristics (generateBacktestScenario 0) demoMarket none true).1 = 160
    ∧ (fuse (analyzeTradeHeuristics (generateBacktestScenario 0) demoMarket none true).1
        0).2 = SuspicionLevel.HIGH
    ∧ SuspicionLevel.HIGH ≠ SuspicionLevel.CRITICAL := by
  have hmain := backtest_heuristics_eval 0 demoMarket none rfl
    (by rw [backtest_z_none]; norm_num)
  rw [hmain]
  refine ⟨le_refl 0, rfl, ?_, by decide⟩
  rw [fuse_snd]
  rw [if_neg (by norm_num), if_pos (by norm_num)]

lemma getLast?_mem_of_eq {α : Type} {l : List α} {a : α}
    (h : l.getLast? = some a) : a ∈ l := by
  obtain ⟨hne, rfl⟩ := List.mem_getLast?_eq_getLast (by rw [h]; rfl)
  exact List.getLast_mem hne

lemma jsSetDedup_foldl_nodup {α : Type} [DecidableEq α] :
    ∀ (l acc : List α), acc.Nodup →
      (l.foldl (fun acc x => if x ∈ acc then acc else acc ++ [x]) acc).Nodup := by
  intro l
  induction l with
  | nil => intro acc h; exact h
  | cons x xs ih =>
    intro acc h
    simp only [List.foldl_cons]
    by_cases hx : x ∈ acc
    · rw [if_pos hx]
      exact ih acc h
    · rw [if_neg hx]
      refine ih _ ?_
      simp [List.nodup_append, h, hx]

lemma jsSetDedup_foldl_mem {α : Type} [DecidableEq α] :
    ∀ (l acc : List α) (y : α),
      y ∈ l.foldl (fun acc x => if x ∈ acc then acc else acc ++ [x]) acc
        ↔ y ∈ acc ∨ y ∈ l := by
  intro l
  induction l with
  | nil => intro acc y; simp
  | cons x xs ih =>
    intro acc y
    simp only [List.foldl_cons]
    by_cases hx : x ∈ acc
    · rw [if_pos hx, ih]
      constructor
      · rintro (h | h)
        · exact Or.inl h
        · exact Or.inr (List.mem_cons_of_mem _ h)
      · rintro (h | h)
        · exact Or.inl h
        · rcases List.mem_cons.mp h with rfl | h
          · exact Or.inl hx
          · exact Or.inr h
    · rw [if_neg hx, ih]
      simp only [List.mem_append, List.mem_singleton, List.mem_cons]
      tauto

lemma jsSetDedup_nodup {α : Type} [DecidableEq α] (l : List α) :
    (jsSetDedup l).Nodup :=
  jsSetDedup_foldl_nodup l [] List.nodup_nil

lemma jsSetDedup_mem {α : Type} [DecidableEq α] (l : List α) (y : α) :
    y ∈ jsSetDedup l ↔ y ∈ l := by
  rw [jsSetDedup, jsSetDedup_foldl_mem]
  simp

/-- JS `Array.from(new Map(l.map(item => [item.id, item])).values())`: one
entry per id, positioned at the id's first occurrence, holding the LAST
occurrence's value (`Map` construction overwrites the value of an existing
key while keeping its insertion position). -/
def jsMapDedup (l : List SuspiciousActivity) : List SuspiciousActivity :=
  (jsSetDedup (l.map (fun a => a.id))).filterMap
    (fun i => (l.filter (fun a => a.id = i)).getLast?)

lemma jsMapDedup_last (l : List SuspiciousActivity) :
    ∀ a ∈ jsMapDedup l, (l.filter (fun b => b.id = a.id)).getLast? = some a := by
  intro a ha
  simp only [jsMapDedup, List.mem_filterMap] at ha
  obtain ⟨i, _, hlast⟩ := ha
  have hmem := getLast?_mem_of_eq hlast
  have hid : a.id = i := by
    have := List.mem_filter.mp hmem
    simpa using this.2
  rw [hid]
  exact hlast

lemma jsMapDedup_map_id (l : List SuspiciousActivity) :
    (jsMapDedup l).map (fun a => a.id) = jsSetDedup (l.map (fun a => a.id)) := by
  rw [jsMapDedup, List.map_filterMap]
  have hcongr : ∀ i ∈ jsSetDedup (l.map (fun a => a.id)),
      ((l.filter (fun a => a.id = i)).getLast?).map (fun a => a.id) = some i := by
    intro i hi
    have hmem : i ∈ l.map (fun a => a.id) := (jsSetDedup_mem _ i).mp hi
    obtain ⟨b, hb, rfl⟩ := List.mem_map.mp hmem
    have hbf : b ∈ l.filter (fun a => decide (a.id = b.id)) :=
      List.mem_filter.mpr ⟨hb, by simp⟩
    have hne : l.filter (fun a => decide (a.id = b.id)) ≠ [] :=
      List.ne_nil_of_mem hbf
    obtain ⟨c, hc⟩ : ∃ c, (l.filter (fun a => decide (a.id = b.id))).getLast? = some c :=
      ⟨_, List.getLast?_eq_getLast_of_ne_nil hne⟩
    have hcid : c.id = b.id := by
      have := List.mem_filter.mp (getLast?_mem_of_eq hc)
      simpa using this.2
    rw [hc]
    simp [hcid]
  rw [List.filterMap_congr hcongr]
  exact List.filterMap_some _

/-- The JS sort comparator of the Alert Ledger merge:
`(a, b) => b.suspicionScore - a.suspicionScore || b.trade.timestamp - a.trade.timestamp`,
read as the "a comes no later than b" relation of the resulting order. -/
def alertR (a b : SuspiciousActivity) : Prop :=
  b.suspicionScore < a.suspicionScore
  ∨ (a.suspicionScore = b.suspicionScore ∧ b.trade.timestamp ≤ a.trade.timestamp)

instance : DecidableRel alertR := fun a b =>
  inferInstanceAs (Decidable (b.suspicionScore < a.suspicionScore
    ∨ (a.suspicionScore = b.suspicionScore ∧ b.trade.timestamp ≤ a.trade.timestamp)))

instance : IsTotal SuspiciousActivity alertR :=
  ⟨fun a b => by unfold alertR; omega⟩

instance : IsTrans SuspiciousActivity alertR :=
  ⟨fun a b c hab hbc => by unfold alertR at hab hbc ⊢; omega⟩

/-- The Alert Ledger merge from `startLiveScan` (App.tsx lines 154-161):
prepend the new alerts, deduplicate by id with JS `Map` semantics, sort by
(score desc, timestamp desc), truncate to 50. -/
def mergeAlerts (validAlerts prev : List SuspiciousActivity) :
    List SuspiciousActivity :=
  ((jsMapDedup (validAlerts ++ prev)).insertionSort alertR).take 50

/-- C6 (amended): after every merge the retained set has at most 50 entries,
is sorted by (suspicionScore desc, trade timestamp desc), and holds at most
one alert per trade id; for a duplicate id the retained entry is the LAST
occurrence of that id in `newAlerts ++ retained` (JS `Map` semantics: an
already-retained alert's value survives over a new alert with the same id),
placed by the id's first occurrence before sorting. -/
theorem mergeAlerts_invariant (newAlerts prev : List SuspiciousActivity) :
    (mergeAlerts newAlerts prev).length ≤ 50
    ∧ List.Sorted alertR (mergeAlerts newAlerts prev)
    ∧ ((mergeAlerts newAlerts prev).map (fun a => a.id)).Nodup
    ∧ ∀ a ∈ mergeAlerts newAlerts prev,
        ((newAlerts ++ prev).filter (fun b => b.id = a.id)).getLast? = some a := by
  refine ⟨List.length_take_le 50 _, ?_, ?_, ?_⟩
  · exact List.Pairwise.sublist (List.take_sublist 50 _)
      (List.sorted_insertionSort alertR _)
  · have hperm : List.Perm ((jsMapDedup (newAlerts ++ prev)).insertionSort alertR)
        (jsMapDedup (newAlerts ++ prev)) := List.perm_insertionSort alertR _
    have hnodup : (((jsMapDedup (newAlerts ++ prev)).insertionSort alertR).map
        (fun a => a.id)).Nodup := by
      rw [(hperm.map (fun a => a.id)).nodup_iff, jsMapDedup_map_id]
      exact jsSetDedup_nodup _
    have hsub : List.Sublist ((mergeAlerts newAlerts prev).map (fun a => a.id))
        (((jsMapDedup (newAlerts ++ prev)).insertionSort alertR).map
          (fun a => a.id)) := by
      rw [mergeAlerts, List.map_take]
      exact List.take_sublist 50 _
    exact hnodup.sublist hsub
  · intro a ha
    have hmem : a ∈ (jsMapDedup (newAlerts ++ prev)).insertionSort alertR :=
      List.take_subset 50 _ ha
    have : a ∈ jsMapDedup (newAlerts ++ prev) :=
      (List.perm_insertionSort alertR _).subset hmem
    exact jsMapDedup_last _ a this

/-- An alert used by the C6 counterexample as the newly produced alert
(score 90) for trade id "dup". -/
def cexAlertNew : SuspiciousActivity :=
  ⟨"dup", demoTrade, 90, SuspicionLevel.CRITICAL, "new", [], none⟩

/-- An alert used by the C6 counterexample as the already-retained alert
(score 10) for the same trade id "dup". -/
def cexAlertOld : SuspiciousActivity :=
  ⟨"dup", demoTrade, 10, SuspicionLevel.LOW, "old", [], none⟩

/-- C6 counterexample: merging a fresh alert for id "dup" (score 90) into a
ledger already retaining an alert for "dup" (score 10) keeps the OLD alert:
the last occurrence in `newAlerts ++ retained` wins, not the
first-seen-after-merge occurrence. -/
theorem mergeAlerts_first_seen_cex :
    mergeAlerts [cexAlertNew] [cexAlertOld] = [cexAlertOld]
    ∧ cexAlertOld.suspicionScore ≠ cexAlertNew.suspicionScore := by
  constructor
  · rfl
  · decide


/-- A worker-visible state of `processQueue` (App.tsx lines 75-91): the
pending shared queue, the items currently being evaluated by some worker,
and the results pushed so far. -/
structure PQState (T R : Type) where
  queue : List T
  inFlight : List T
  results : List R

/-- The interleaved execution of `processQueue` with concurrency bound `K`
and per-item behaviour `fn` (`Except.error` models a thrown exception caught
by the worker, `Except.ok none` a null result): a worker atomically shifts
the head off the shared queue — only while fewer than `K` items are in
flight — and a completed evaluation atomically records its outcome: a
produced result is pushed, while a null result or a caught exception
contributes nothing. -/
inductive PQStep {T R : Type} [DecidableEq T]
    (fn : T → Except String (Option R)) (K : ℕ) :
    PQState T R → PQState T R → Prop
  | start (q : T) (rest inF : List T) (res : List R)
      (hK : inF.length < K) :
      PQStep fn K ⟨q :: rest, inF, res⟩ ⟨rest, inF ++ [q], res⟩
  | finishSome (item : T) (r : R) (queue inF : List T) (res : List R)
      (hmem : item ∈ inF) (heval : fn item = Except.ok (some r)) :
      PQStep fn K ⟨queue, inF, res⟩ ⟨queue, inF.erase item, res ++ [r]⟩
  | finishNone (item : T) (queue inF : List T) (res : List R)
      (hmem : item ∈ inF) (heval : fn item = Except.ok none) :
      PQStep fn K ⟨queue, inF, res⟩ ⟨queue, inF.erase item, res⟩
  | finishErr (item : T) (e : String) (queue inF : List T) (res : List R)
      (hmem : item ∈ inF) (heval : fn item = Except.error e) :
      PQStep fn K ⟨queue, inF, res⟩ ⟨queue, inF.erase item, res⟩

/-- The results `processQueue` is specified to return: one result per
candidate whose evaluation succeeded with a non-null value. -/
def pqSuccesses {T R : Type} (fn : T → Except String (Option R))
    (items : List T) : List R :=
  items.filterMap (fun i =>
    match fn i with
    | Except.ok (some r) => some r
    | _ => none)

lemma coe_cons_split {T : Type} (a : T) (l : List T) :
    ((a :: l : List T) : Multiset T) = {a} + ↑l := by
  rw [← Multiset.cons_coe, ← Multiset.singleton_add]

lemma coe_erase_split {T : Type} [DecidableEq T] {a : T} {l : List T}
    (h : a ∈ l) : (l : Multiset T) = {a} + ↑(l.erase a) := by
  calc (l : Multiset T) = ↑(a :: l.erase a) :=
        Multiset.coe_eq_coe.mpr (List.perm_cons_erase h)
    _ = {a} + ↑(l.erase a) := coe_cons_split a _

lemma pqStep_invariant {T R : Type} [DecidableEq T]
    (fn : T → Except String (Option R)) (K : ℕ) {s s' : PQState T R}
    (hstep : PQStep fn K s s') (items : List T) (processed : List T)
    (hq : (items : Multiset T) = ↑s.queue + ↑s.inFlight + ↑processed)
    (hr : s.results.Perm (pqSuccesses fn processed)) :
    ∃ processed' : List T,
      (items : Multiset T) = ↑s'.queue + ↑s'.inFlight + ↑processed'
      ∧ s'.results.Perm (pqSuccesses fn processed') := by
  cases hstep with
  | start q rest inF res hK =>
    refine ⟨processed, ?_, hr⟩
    rw [hq, coe_cons_split]
    have h2 : ((inF ++ [q] : List T) : Multiset T) = ↑inF + {q} := by
      rw [← Multiset.coe_singleton q, ← Multiset.coe_add]
    rw [h2]
    abel
  | finishSome item r queue inF res hmem heval =>
    refine ⟨processed ++ [item], ?_, ?_⟩
    · rw [hq, coe_erase_split hmem]
      have h2 : ((processed ++ [item] : List T) : Multiset T) = ↑processed + {item} := by
        rw [← Multiset.coe_singleton item, ← Multiset.coe_add]
      rw [h2]
      abel
    · have h3 : pqSuccesses fn (processed ++ [item]) = pqSuccesses fn processed ++ [r] := by
        simp [pqSuccesses, List.filterMap_append, heval]
      rw [h3]
      exact hr.append_right [r]
  | finishNone item queue inF res hmem heval =>
    refine ⟨processed ++ [item], ?_, ?_⟩
    · rw [hq, coe_erase_split hmem]
      have h2 : ((processed ++ [item] : List T) : Multiset T) = ↑processed + {item} := by
        rw [← Multiset.coe_singleton item, ← Multiset.coe_add]
      rw [h2]
      abel
    · have h3 : pqSuccesses fn (processed ++ [item]) = pqSuccesses fn processed := by
        simp [pqSuccesses, List.filterMap_append, heval]
      rw [h3]
      exact hr
  | finishErr item e queue inF res hmem heval =>
    refine ⟨processed ++ [item], ?_, ?_⟩
    · rw [hq, coe_erase_split hmem]
      have h2 : ((processed ++ [item] : List T) : Multiset T) = ↑processed + {item} := by
        rw [← Multiset.coe_singleton item, ← Multiset.coe_add]
      rw [h2]
      abel
    · have h3 : pqSuccesses fn (processed ++ [item]) = pqSuccesses fn processed := by
        simp [pqSuccesses, List.filterMap_append, heval]
      rw [h3]
      exact hr

lemma pq_reachable_invariant {T R : Type} [DecidableEq T]
    (fn : T → Except String (Option R)) (K : ℕ) (items : List T)
    (s' : PQState T R)
    (h : Relation.ReflTransGen (PQStep fn K) ⟨items, [], []⟩ s') :
    ∃ processed : List T,
      (items : Multiset T) = ↑s'.queue + ↑s'.inFlight + ↑processed
      ∧ s'.results.Perm (pqSuccesses fn processed) := by
  induction h with
  | refl => exact ⟨[], by simp, by simp [pqSuccesses]⟩
  | tail _ hbc ih =>
    obtain ⟨p, h1, h2⟩ := ih
    exact pqStep_invariant fn K hbc items p h1 h2

/-- C8: in every interleaved execution of the bounded concurrent evaluator,
a candidate whose evaluation throws is simply recorded as producing no
result while the run continues, and whenever the evaluator can return
(queue drained, no evaluation in flight) the collected results are exactly
the alerts of the successful candidates (as a multiset — the order is
unspecified); moreover for a positive concurrency bound a run that has not
yet processed every candidate always has a next step, so the evaluator
cannot return early. -/
theorem processQueue_correct {T R : Type} [DecidableEq T]
    (fn : T → Except String (Option R)) (K : ℕ) (items : List T)
    (s' : PQState T R)
    (hreach : Relation.ReflTransGen (PQStep fn K) ⟨items, [], []⟩ s') :
    (s'.queue = [] ∧ s'.inFlight = [] → s'.results.Perm (pqSuccesses fn items))
    ∧ (1 ≤ K → (s'.queue ≠ [] ∨ s'.inFlight ≠ []) →
        ∃ s'', PQStep fn K s' s'') := by
  constructor
  · rintro ⟨hq, hf⟩
    obtain ⟨p, h1, h2⟩ := pq_reachable_invariant fn K items s' hreach
    rw [hq, hf] at h1
    simp only [Multiset.coe_nil, zero_add] at h1
    have hperm : items.Perm p := Multiset.coe_eq_coe.mp h1
    exact h2.trans ((hperm.filterMap _).symm)
  · intro hK hne
    obtain ⟨qs, fs, rs⟩ := s'
    rcases hqs : qs with _ | ⟨q, rest⟩
    · subst hqs
      have hf : fs ≠ [] := by
        rcases hne with h | h
        · exact absurd rfl h
        · exact h
      obtain ⟨item, hitem⟩ := List.exists_mem_of_ne_nil fs hf
      rcases heval : fn item with e | o
      · exact ⟨_, PQStep.finishErr item e [] fs rs hitem heval⟩
      · rcases o with _ | r
        · exact ⟨_, PQStep.finishNone item [] fs rs hitem heval⟩
        · exact ⟨_, PQStep.finishSome item r [] fs rs hitem heval⟩
    · subst hqs
      by_cases hlen : fs.length < K
      · exact ⟨_, PQStep.start q rest fs rs hlen⟩
      · have hf : fs ≠ [] := by
          intro h
          apply hlen
          rw [h]
          simpa using hK
        obtain ⟨item, hitem⟩ := List.exists_mem_of_ne_nil fs hf
        rcases heval : fn item with e | o
        · exact ⟨_, PQStep.finishErr item e (q :: rest) fs rs hitem heval⟩
        · rcases o with _ | r
          · exact ⟨_, PQStep.finishNone item (q :: rest) fs rs hitem heval⟩
          · exact ⟨_, PQStep.finishSome item r (q :: rest) fs rs hitem heval⟩

/-- A per-item behaviour for the C8 witness: item 2 throws, the others
produce themselves as a result. -/
def pqDemoFn : ℕ → Except String (Option ℕ) :=
  fun n => if n = 2 then Except.error "boom" else Except.ok (some n)

/-- Witness for C8: a complete concrete run of 3 candidates with concurrency
3 in which candidate 2 throws; the run still finishes both other candidates
and returns exactly their results. -/
theorem processQueue_correct_witness :
    List.Perm ([1, 3] : List ℕ) (pqSuccesses pqDemoFn [1, 2, 3])
    ∧ pqSuccesses pqDemoFn [1, 2, 3] = [1, 3] := by
  refine ⟨?_, rfl⟩
  have hreach : Relation.ReflTransGen (PQStep pqDemoFn 3)
      ⟨[1, 2, 3], [], []⟩ (⟨[], [], [1, 3]⟩ : PQState ℕ ℕ) := by
    refine Relation.ReflTransGen.head (PQStep.start 1 [2, 3] [] [] (by norm_num)) ?_
    refine Relation.ReflTransGen.head (PQStep.start 2 [3] [1] [] (by norm_num)) ?_
    refine Relation.ReflTransGen.head (PQStep.start 3 [] [1, 2] [] (by norm_num)) ?_
    refine Relation.ReflTransGen.head
      (PQStep.finishSome 1 1 [] [1, 2, 3] [] (by decide) rfl) ?_
    refine Relation.ReflTransGen.head
      (PQStep.finishErr 2 "boom" [] [2, 3] [1] (by decide) rfl) ?_
    refine Relation.ReflTransGen.head
      (PQStep.finishSome 3 3 [] [3] [1] (by decide) rfl) ?_
    exact Relation.ReflTransGen.refl
  exact (processQueue_correct pqDemoFn 3 [1, 2, 3] ⟨[], [], [1, 3]⟩ hreach).1 ⟨rfl, rfl⟩
